import Mathlib

/-!
Verification of the aggregation pipeline of `save_charts.py`.

The script loads a table of job-posting records and computes five
descriptive aggregates (monthly posting counts, top job titles, top
skills per role, median salary by title, top-paying skills), each
rendered as a chart.  Chart rendering and file I/O are external
collaborators; here we shallowly embed the data model and the five
filter/group/aggregate transformations and prove properties about them.

Pandas semantics embedded explicitly:
* a DataFrame column of nullable values is an `Option` field;
* `groupby` sorts its keys ascending and drops rows whose key is null;
* `value_counts` counts distinct values and sorts descending by count;
* `explode` turns a list-valued cell into one row per element, and a
  null or empty list into a single row with a null cell;
* `sort_values` on several keys (numpy lexsort) is a stable sort;
* `median` ignores null values and averages the two middle values for
  an even number of observations;
* `.str.contains(pat, case=False, na=False)` is a case-insensitive
  substring test that is `false` on a null cell.
-/

namespace JobCharts

open List

/-- One job posting: the columns of the cleaned parquet table used by
`save_charts.py`.  The posted date is abstracted to its month number
(1–12), the only part of the date the script uses. -/
structure PostingRecord where
  job_country : String
  job_posted_date : Option Nat
  job_title : Option String
  job_title_short : String
  job_skills : Option (List String)
  salary_year_avg : Option ℚ
deriving DecidableEq

/-- The in-memory dataset: an ordered collection of posting records. -/

abbrev Dataset := List PostingRecord

/-! ### Generic list machinery: stable sort, first-seen dedup -/

/-- Insert `x` into `l` in front of the first element `y` with `le x y`;
the insertion step of a stable insertion sort. -/

def insertOrd (le : α → α → Bool) (x : α) : List α → List α
  | [] => [x]
  | y :: ys => if le x y then x :: y :: ys else y :: insertOrd le x ys

/-- Stable sort by the boolean relation `le` (model of pandas
`sort_values`, whose multi-key sort is numpy's stable lexsort). -/

def sortBy (le : α → α → Bool) : List α → List α
  | [] => []
  | x :: xs => insertOrd le x (sortBy le xs)

/-- Remove duplicates keeping the first occurrence of each value, in
input order (model of pandas hash-table grouping order). -/

def dedupFS [DecidableEq α] : List α → List α
  | [] => []
  | x :: xs => x :: (dedupFS xs).filter (fun y => decide (y ≠ x))

def charListLt : List Char → List Char → Bool
  | [], [] => false
  | [], _ :: _ => true
  | _ :: _, [] => false
  | a :: as, b :: bs => if a < b then true else if b < a then false else charListLt as bs

def strLtB (s t : String) : Bool := charListLt s.data t.data

def strLeB (s t : String) : Bool := ! strLtB t s

def natLtB (a b : Nat) : Bool := decide (a < b)

def lexBy [DecidableEq κ] (ltA : κ → κ → Bool) (leB : β → β → Bool)
    (f : γ → κ) (g : γ → β) (x y : γ) : Bool :=
  ltA (f x) (f y) || (decide (f x = f y) && leB (g x) (g y))

def leBy [LinearOrder β] (f : γ → β) (x y : γ) : Bool := decide (f x ≤ f y)

/-- Descending comparison by a projected linearly ordered key. -/

def geBy [LinearOrder β] (f : γ → β) (x y : γ) : Bool := decide (f y ≤ f x)

def lowerChar (c : Char) : Char :=
  match c with
  | 'A' => 'a' | 'B' => 'b' | 'C' => 'c' | 'D' => 'd' | 'E' => 'e' | 'F' => 'f'
  | 'G' => 'g' | 'H' => 'h' | 'I' => 'i' | 'J' => 'j' | 'K' => 'k' | 'L' => 'l'
  | 'M' => 'm' | 'N' => 'n' | 'O' => 'o' | 'P' => 'p' | 'Q' => 'q' | 'R' => 'r'
  | 'S' => 's' | 'T' => 't' | 'U' => 'u' | 'V' => 'v' | 'W' => 'w' | 'X' => 'x'
  | 'Y' => 'y' | 'Z' => 'z'
  | other => other

def isSpaceChar (c : Char) : Bool := c == ' ' || c == '\t' || c == '\n' || c == '\r'

/-- pandas `.str.strip()`: remove surrounding whitespace. -/

def stripStr (s : String) : String :=
  String.mk (((s.data.dropWhile isSpaceChar).reverse.dropWhile isSpaceChar).reverse)

/-- pandas `.str.lower()`. -/

def lowerStr (s : String) : String := String.mk (s.data.map lowerChar)

/-- The skill normalization of aggregation (e):
`.str.strip().str.lower()` (source line 160). -/

def normSkill (s : String) : String := lowerStr (stripStr s)

def charListHasSubseq (p l : List Char) : Bool := l.tails.any (fun t => p.isPrefixOf t)

/-- pandas `str.contains(pat, case=False)`: case-insensitive substring
test. -/

def containsCI (s pat : String) : Bool :=
  charListHasSubseq (lowerStr pat).data (lowerStr s).data

/-! ### Aggregation (a): monthly posting counts (source lines 16–27) -/

/-- Model of `strftime('%b')`: the human-readable month label. -/

def monthLabel : Nat → String
  | 1 => "Jan" | 2 => "Feb" | 3 => "Mar" | 4 => "Apr" | 5 => "May" | 6 => "Jun"
  | 7 => "Jul" | 8 => "Aug" | 9 => "Sep" | 10 => "Oct" | 11 => "Nov" | 12 => "Dec"
  | _ => ""

def filterCountry (df : Dataset) (c : String) : Dataset :=
  df.filter (fun r => r.job_country == c)

/-- Model of `df_US = df[df['job_country'] == 'United States'].copy()`. -/

def df_US (df : Dataset) : Dataset := filterCountry df "United States"

/-- The copy `df_US` after the two derived month columns are assigned
(lines 18–19): each original record, unchanged, paired with its derived
`(month_num, month)` columns (null when the posted date is null). -/

def dfUSWithMonth (df : Dataset) : List (PostingRecord × Option (Nat × String)) :=
  (df_US df).map (fun r => (r, r.job_posted_date.map (fun m => (m, monthLabel m))))

/-- The `(month_num, month)` key column pairs that survive the
`groupby` (pandas drops rows with a null group key). -/

def monthRowsOf (dfc : Dataset) : List (Nat × String) :=
  dfc.filterMap (fun r => r.job_posted_date.map (fun m => (m, monthLabel m)))

/-- pandas `groupby(keys).size()`: one row per distinct key, keys
sorted ascending by `le`, counting occurrences. -/

def groupCounts [DecidableEq α] (le : α → α → Bool) (rows : List α) : List (α × Nat) :=
  (sortBy le (dedupFS rows)).map (fun k => (k, rows.count k))

def monthKeyLe (a b : Nat × String) : Bool := lexBy natLtB strLeB Prod.fst Prod.snd a b

/-- Model of `monthly_trends` (lines 22–27): group the country-filtered frame by
`(month_num, month)`, count, and sort ascending by `month_num`. -/

def monthly_trends (dfc : Dataset) : List ((Nat × String) × Nat) :=
  sortBy (leBy (fun p => p.1.1)) (groupCounts monthKeyLe (monthRowsOf dfc))

/-! ### Aggregation (b): top 10 job titles (source line 43) -/

/-- pandas `value_counts()`: counts of distinct values, sorted
descending by count (stable, first-seen order among ties). -/

def value_counts [DecidableEq α] (l : List α) : List (α × Nat) :=
  sortBy (geBy Prod.snd) ((dedupFS l).map (fun k => (k, l.count k)))

/-- Model of `top_roles = df['job_title_short'].value_counts().head(10).sort_values(ascending=False)`. -/

def top_roles (df : Dataset) : List (String × Nat) :=
  sortBy (geBy Prod.snd) ((value_counts (df.map (fun r => r.job_title_short))).take 10)

/-! ### Aggregation (c): top 5 skills per top-3 role (lines 68–91, 102–104) -/

/-- The explicit role list of line 68. -/

def top_roles_list : List String := ["Data Analyst", "Data Engineer", "Data Scientist"]

/-- Model of `df_top_roles = df_US[df_US['job_title_short'].isin(top_roles)].copy()`. -/

def df_top_roles (df : Dataset) : Dataset :=
  (df_US df).filter (fun r => top_roles_list.contains r.job_title_short)

/-- Model of `explode('job_skills')` restricted to the two columns the groupby
uses: one `(role, skill)` row per skill; a null or empty skill list
yields a single row with a null skill. -/

def roleSkillRows (dfr : Dataset) : List (String × Option String) :=
  dfr.flatMap (fun r =>
    match r.job_skills with
    | some (s :: ss) => (s :: ss).map (fun x => (r.job_title_short, some x))
    | some [] => [(r.job_title_short, none)]
    | none => [(r.job_title_short, none)])

/-- The `(role, skill)` observations entering the groupby of line 81
(pandas drops the rows whose `job_skills` key is null). -/

def skillObs (df : Dataset) : List (String × String) :=
  (roleSkillRows (df_top_roles df)).filterMap (fun p => p.2.map (fun s => (p.1, s)))

def skillKeyLe (a b : String × String) : Bool := lexBy strLtB strLeB Prod.fst Prod.snd a b

/-- Model of `skill_counts` (lines 80–84): counts per `(role, skill)` pair. -/

def skill_counts (df : Dataset) : List ((String × String) × Nat) :=
  groupCounts skillKeyLe (skillObs df)

/-- The two-key sort of line 88: role ascending, count descending. -/

def roleCountLe (a b : (String × String) × Nat) : Bool :=
  lexBy strLtB (fun m n => decide (n ≤ m)) (fun p => p.1.1) (fun p => p.2) a b

def sortedSkillCounts (df : Dataset) : List ((String × String) × Nat) :=
  sortBy roleCountLe (skill_counts df)

/-- Model of `groupby('job_title_short', group_keys=False).head(k)`: keep the
first `k` rows of each role, in the current row order. -/

def headPerGroupGo (k : Nat) (key : α → String) : List α → List String → List α
  | [], _ => []
  | x :: xs, prev =>
    if prev.count (key x) < k then x :: headPerGroupGo k key xs (key x :: prev)
    else headPerGroupGo k key xs (key x :: prev)

def headPerGroup (k : Nat) (key : α → String) (l : List α) : List α :=
  headPerGroupGo k key l []

/-- Model of `top5_per_role` (lines 87–91). -/

def top5_per_role (df : Dataset) : List ((String × String) × Nat) :=
  headPerGroup 5 (fun p => p.1.1) (sortedSkillCounts df)

/-- Model of `sub` (lines 103–104): one role's rows of `top5_per_role`, re-sorted
ascending by count for the horizontal bar chart. -/

def chartSub (df : Dataset) (role : String) : List ((String × String) × Nat) :=
  sortBy (leBy Prod.snd) ((top5_per_role df).filter (fun p => p.1.1 == role))

/-! ### Aggregation (d): median salary by title (lines 131–136) -/

/-- Model of `top_jobs = df_US['job_title_short'].value_counts().head(top_n).index`. -/

def top_jobs (df : Dataset) : List String :=
  ((value_counts ((df_US df).map (fun r => r.job_title_short))).take 10).map Prod.fst

/-- Model of `df_roles = df_US[df_US['job_title_short'].isin(top_jobs)]`. -/

def df_roles (df : Dataset) : Dataset :=
  (df_US df).filter (fun r => (top_jobs df).contains r.job_title_short)

/-- pandas `groupby(key)[col]`: sorted distinct keys, each with the
column values of its rows. -/

def groupVals [DecidableEq κ] (le : κ → κ → Bool) (rows : List (κ × β)) :
    List (κ × List β) :=
  (sortBy le (dedupFS (rows.map Prod.fst))).map
    (fun k => (k, rows.filterMap (fun q => if q.1 = k then some q.2 else none)))

/-- pandas `median()` of a non-empty numeric list: middle element of the
sorted values, or the mean of the two middle elements. -/

def medianD (l : List ℚ) : ℚ :=
  let s := sortBy (leBy id) l
  if s.length % 2 = 1 then s.getD (s.length / 2) 0
  else (s.getD (s.length / 2 - 1) 0 + s.getD (s.length / 2) 0) / 2

/-- pandas `median()` over a nullable column: null values are ignored;
the median of no observations is null. -/

def medianOpt (l : List (Option ℚ)) : Option ℚ :=
  if l.filterMap id = [] then none else some (medianD (l.filterMap id))

def titleSalaryRows (df : Dataset) : List (String × Option ℚ) :=
  (df_roles df).map (fun r => (r.job_title_short, r.salary_year_avg))

/-- Model of `sort_values(ascending=True)` on a nullable numeric column: nulls
are placed last (pandas `na_position='last'`). -/

def optValLe (a b : Option ℚ) : Bool :=
  match a, b with
  | some x, some y => decide (x ≤ y)
  | some _, none => true
  | none, none => true
  | none, some _ => false

def medSortLe (a b : String × Option ℚ) : Bool := optValLe a.2 b.2

/-- Model of `df_grouped` (line 136): median salary per title over the top-10
titles, sorted ascending by median. -/

def df_grouped (df : Dataset) : List (String × Option ℚ) :=
  sortBy medSortLe
    ((groupVals strLeB (titleSalaryRows df)).map (fun g => (g.1, medianOpt g.2)))

/-! ### Aggregation (e): top-paying skills for data analysts (lines 153–173) -/

/-- Model of `df_US['job_title'].str.contains('data analyst', case=False, na=False)`:
null raw titles do not match. -/

def titleMatchDA (r : PostingRecord) : Bool :=
  match r.job_title with
  | some t => containsCI t "data analyst"
  | none => false

/-- Model of `df_DA` (line 153). -/

def df_DA (df : Dataset) : Dataset := (df_US df).filter titleMatchDA

/-- Model of `df_DA.dropna(subset=['salary_year_avg', 'job_skills'])` (line 156). -/

def df_DA_dropna (df : Dataset) : Dataset :=
  (df_DA df).filter (fun r => r.salary_year_avg.isSome && r.job_skills.isSome)

/-- One record's rows under `explode('job_skills')` (line 159),
restricted to the two columns used downstream: one `(skill, salary)`
row per skill; a null or empty skill list yields one row with a null
skill. -/
def explodeSkillSalary (r : PostingRecord) : List (Option String × Option ℚ) :=
  match r.job_skills with
  | some (s :: ss) => (s :: ss).map (fun x => (some x, r.salary_year_avg))
  | some [] => [(none, r.salary_year_avg)]
  | none => [(none, r.salary_year_avg)]

/-- Model of `df_DA.explode('job_skills')` (line 159). -/
def df_DA_exploded (df : Dataset) : List (Option String × Option ℚ) :=
  (df_DA_dropna df).flatMap explodeSkillSalary

/-- Normalization of one exploded row's skill cell (nulls stay null). -/
def normSkillPair (p : Option String × Option ℚ) : Option String × Option ℚ :=
  (p.1.map normSkill, p.2)

/-- Line 160: `df_DA_exploded['job_skills'] = ... .str.strip().str.lower()`. -/
def df_DA_norm (df : Dataset) : List (Option String × Option ℚ) :=
  (df_DA_exploded df).map normSkillPair

/-- The `(skill, salary)` rows entering the groupby of line 166 (rows
with a null skill key are dropped by pandas). -/

def skillSalaryRows (df : Dataset) : List (String × Option ℚ) :=
  (df_DA_norm df).filterMap (fun p => p.1.map (fun s => (s, p.2)))

/-- Model of `df_analyst_skill_salary` (lines 164–170): median salary per
normalized skill, sorted descending.  After the dropna of line 156
every group is non-empty with non-null salaries, so the median is
total. -/

def df_analyst_skill_salary (df : Dataset) : List (String × ℚ) :=
  sortBy (geBy Prod.snd)
    ((groupVals strLeB (skillSalaryRows df)).map
      (fun g => (g.1, medianD (g.2.filterMap id))))

/-- Model of `df_top_analyst_skills = df_analyst_skill_salary.head(10)` (line 173). -/

def df_top_analyst_skills (df : Dataset) : List (String × ℚ) :=
  (df_analyst_skill_salary df).take 10

/-! ### The whole script -/

/-- The five summary tables the script hands to the chart renderer,
together with the dataset as the script leaves it. -/

structure PipelineOut where
  monthly : List ((Nat × String) × Nat)
  topTitles : List (String × Nat)
  topSkillsPerRole : List ((String × String) × Nat)
  medianByTitle : List (String × Option ℚ)
  topPayingSkills : List (String × ℚ)
  df_out : Dataset
deriving DecidableEq

/-- The top-level flow of `save_charts.py`: each aggregation reads the
loaded dataset (or a filtered copy of it); no statement of the script
assigns to `df` itself — the two column assignments of lines 18–19 and
160 target the `.copy()` of line 16 and the new frame returned by
`explode` — so the dataset the script ends with is the one it loaded. -/

def runPipeline (df : Dataset) : PipelineOut :=
  { monthly := monthly_trends (df_US df)
    topTitles := top_roles df
    topSkillsPerRole := top5_per_role df
    medianByTitle := df_grouped df
    topPayingSkills := df_top_analyst_skills df
    df_out := df }

/-! ### Generic lemmas about the embedded pandas operations -/

def usRec (tshort : String) (title : Option String) (m : Option Nat)
    (skills : Option (List String)) (sal : Option ℚ) : PostingRecord :=
  { job_country := "United States", job_posted_date := m, job_title := title,
    job_title_short := tshort, job_skills := skills, salary_year_avg := sal }

def exDfSkills : Dataset :=
  [ usRec "Data Analyst" (some "Data Analyst") (some 1)
      (some ["sql", "excel", "python", "r", "tableau", "powerbi"]) (some 100)
  , usRec "Data Analyst" (some "Data Analyst") (some 1)
      (some ["sql", "excel", "python"]) (some 90)
  , usRec "Data Analyst" (some "Data Analyst") (some 2) (some ["sql"]) (some 110) ]

def exDfSalary : Dataset :=
  [ usRec "Data Analyst" none (some 1) none (some 50)
  , usRec "Data Analyst" none (some 1) none (some 100)
  , usRec "Data Analyst" none (some 2) none (some 900)
  , usRec "Data Engineer" none (some 3) none (some 90)
  , usRec "Data Engineer" none (some 3) none none ]

def exDfNormA : Dataset :=
  [ usRec "Data Analyst" (some "Data Analyst") (some 1)
      (some [" SQL ", "Excel"]) (some 100) ]

def exDfNormB : Dataset :=
  [ usRec "Data Analyst" (some "Data Analyst") (some 1)
      (some ["sql", "excel"]) (some 100) ]

def exDfCase : Dataset :=
  [ usRec "Data Analyst" (some "Data Analyst") (some 1)
      (some ["SQL", "sql"]) (some 100) ]

/-- The length of a record's skill list (zero when the list is null or
empty). -/
def skillLen (r : PostingRecord) : Nat :=
  match r.job_skills with
  | some l => l.length
  | none => 0

/-- Two skill strings are equivalent when they agree after trimming
surrounding whitespace and lower-casing. -/
def skillNormEq (s t : String) : Prop := normSkill s = normSkill t

/-- Pointwise `skillNormEq` on nullable skill lists. -/
def skillsRel : Option (List String) → Option (List String) → Prop
  | none, none => True
  | some l1, some l2 => List.Forall₂ skillNormEq l1 l2
  | some _, none => False
  | none, some _ => False

/-- Two records that agree on every field except that corresponding
skill entries may differ in letter case or surrounding whitespace. -/
def recNormEq (a b : PostingRecord) : Prop :=
  a.job_country = b.job_country ∧ a.job_posted_date = b.job_posted_date ∧
  a.job_title = b.job_title ∧ a.job_title_short = b.job_title_short ∧
  a.salary_year_avg = b.salary_year_avg ∧ skillsRel a.job_skills b.job_skills

theorem filterMap_sel_map_some (t : String) (l : List String) :
    (l.map (fun x => (t, some x))).filterMap
      (fun p : String × Option String => p.2.map (fun s => (p.1, s)))
      = l.map (fun x => (t, x)) := by
  induction l with
  | nil => rfl
  | cons s ss ih => simp [List.filterMap_cons, ih]

theorem roleSkillRows_obs_length (dfr : Dataset) :
    ((roleSkillRows dfr).filterMap (fun p => p.2.map (fun s => (p.1, s)))).length
      = (dfr.map skillLen).sum := by
  induction dfr with
  | nil => rfl
  | cons r rest ih =>
    simp only [roleSkillRows] at ih ⊢
    rw [List.flatMap_cons, List.filterMap_append, List.length_append, List.map_cons,
      List.sum_cons, ih]
    rcases hsk : r.job_skills with _ | sk
    · simp [skillLen, hsk]
    · cases sk with
      | nil => simp [skillLen, hsk]
      | cons s ss =>
        simp only [hsk]
        rw [filterMap_sel_map_some]
        simp [skillLen, hsk]

theorem length_monthRowsOf (dfc : Dataset) :
    (monthRowsOf dfc).length = (dfc.filter (fun r => r.job_posted_date.isSome)).length := by
  induction dfc with
  | nil => rfl
  | cons r rest ih =>
    simp only [monthRowsOf] at ih ⊢
    rw [List.filterMap_cons, List.filter_cons]
    rcases hd : r.job_posted_date with _ | m
    · simpa [hd] using ih
    · simp [hd, ih]

theorem insertOrd_perm (le : α → α → Bool) (x : α) (l : List α) :
    insertOrd le x l ~ x :: l := by
  induction l with
  | nil => exact List.Perm.refl _
  | cons y ys ih =>
    simp only [insertOrd]
    split
    · exact List.Perm.refl _
    · exact (ih.cons y).trans (List.Perm.swap x y ys)

theorem sortBy_perm (le : α → α → Bool) (l : List α) : sortBy le l ~ l := by
  induction l with
  | nil => exact List.Perm.refl _
  | cons x xs ih => exact (insertOrd_perm le x (sortBy le xs)).trans (ih.cons x)

theorem mem_sortBy (le : α → α → Bool) (a : α) (l : List α) :
    a ∈ sortBy le l ↔ a ∈ l :=
  (sortBy_perm le l).mem_iff

theorem mem_insertOrd (le : α → α → Bool) (a x : α) (l : List α) :
    a ∈ insertOrd le x l ↔ a = x ∨ a ∈ l := by
  rw [(insertOrd_perm le x l).mem_iff, List.mem_cons]

theorem pairwise_insertOrd (le : α → α → Bool)
    (htrans : ∀ a b c, le a b = true → le b c = true → le a c = true)
    (htotal : ∀ a b, le a b = true ∨ le b a = true)
    (x : α) (l : List α) (hl : l.Pairwise (fun a b => le a b = true)) :
    (insertOrd le x l).Pairwise (fun a b => le a b = true) := by
  induction l with
  | nil => simp [insertOrd]
  | cons y ys ih =>
    rw [List.pairwise_cons] at hl
    obtain ⟨hy, hys⟩ := hl
    simp only [insertOrd]
    split
    case isTrue h =>
      rw [List.pairwise_cons]
      refine ⟨?_, List.Pairwise.cons hy hys⟩
      intro z hz
      rcases List.mem_cons.mp hz with rfl | hz
      · exact h
      · exact htrans x y z h (hy z hz)
    case isFalse h =>
      rw [List.pairwise_cons]
      refine ⟨?_, ih hys⟩
      intro z hz
      rcases (mem_insertOrd le z x ys).mp hz with rfl | hz
      · rcases htotal z y with h2 | h2
        · exact absurd h2 (by simpa using h)
        · exact h2
      · exact hy z hz

theorem pairwise_sortBy (le : α → α → Bool)
    (htrans : ∀ a b c, le a b = true → le b c = true → le a c = true)
    (htotal : ∀ a b, le a b = true ∨ le b a = true)
    (l : List α) : (sortBy le l).Pairwise (fun a b => le a b = true) := by
  induction l with
  | nil => simp [sortBy]
  | cons x xs ih => exact pairwise_insertOrd le htrans htotal x (sortBy le xs) ih

theorem sublist_insertOrd (le : α → α → Bool) (x : α) (l : List α) :
    l <+ insertOrd le x l := by
  induction l with
  | nil => exact List.nil_sublist _
  | cons y ys ih =>
    simp only [insertOrd]
    split
    · exact List.Sublist.cons x (List.Sublist.refl _)
    · exact List.Sublist.cons₂ y ih

theorem pair_sublist_insertOrd (le : α → α → Bool) {a b : α}
    (hab : le a b = true) {l : List α} (hb : b ∈ l) :
    [a, b] <+ insertOrd le a l := by
  induction l with
  | nil => cases hb
  | cons y ys ih =>
    simp only [insertOrd]
    split
    case isTrue h =>
      exact List.Sublist.cons₂ a (List.singleton_sublist.mpr hb)
    case isFalse h =>
      rcases List.mem_cons.mp hb with rfl | hb2
      · exact absurd hab (by simpa using h)
      · exact List.Sublist.cons y (ih hb2)

theorem pair_sublist_sortBy (le : α → α → Bool) {a b : α}
    (hab : le a b = true) {l : List α} (h : [a, b] <+ l) :
    [a, b] <+ sortBy le l := by
  induction l with
  | nil => cases h
  | cons x xs ih =>
    cases h with
    | cons _ h2 =>
      exact (ih h2).trans (sublist_insertOrd le x (sortBy le xs))
    | cons₂ _ h2 =>
      exact pair_sublist_insertOrd le hab
        ((mem_sortBy le b xs).mpr (List.singleton_sublist.mp h2))

theorem mem_dedupFS [DecidableEq α] (a : α) (l : List α) :
    a ∈ dedupFS l ↔ a ∈ l := by
  induction l with
  | nil => simp [dedupFS]
  | cons x xs ih =>
    simp only [dedupFS, List.mem_cons, List.mem_filter, ih, decide_eq_true_eq]
    by_cases h : a = x <;> simp [h]

theorem nodup_dedupFS [DecidableEq α] (l : List α) : (dedupFS l).Nodup := by
  induction l with
  | nil => simp [dedupFS]
  | cons x xs ih =>
    simp only [dedupFS]
    rw [List.nodup_cons]
    constructor
    · intro hx
      have := (List.mem_filter.mp hx).2
      simp at this
    · exact ih.filter _

theorem dedupFS_perm_dedup [DecidableEq α] (l : List α) : dedupFS l ~ l.dedup := by
  rw [List.perm_ext_iff_of_nodup (nodup_dedupFS l) l.nodup_dedup]
  intro a
  rw [mem_dedupFS, List.mem_dedup]

theorem sum_counts_dedupFS [DecidableEq α] (l : List α) :
    ((dedupFS l).map (fun k => l.count k)).sum = l.length := by
  have h := (dedupFS_perm_dedup l).map (fun k => l.count k)
  rw [h.sum_eq]
  exact List.sum_map_count_dedup_eq_length l

/-! ### Character and string ordering (for sorted group keys) -/

/-- Lexicographic strict order on character lists (the alphabetical
order pandas uses for sorted string group keys). -/

theorem charListLt_irrefl : ∀ l, charListLt l l = false
  | [] => rfl
  | a :: as => by simp [charListLt, charListLt_irrefl as]

theorem charListLt_trans :
    ∀ a b c, charListLt a b = true → charListLt b c = true → charListLt a c = true
  | [], [], _, h1, _ => by simp [charListLt] at h1
  | [], _ :: _, [], _, h2 => by simp [charListLt] at h2
  | [], _ :: _, _ :: _, _, _ => by simp [charListLt]
  | _ :: _, [], _, h1, _ => by simp [charListLt] at h1
  | _ :: _, _ :: _, [], _, h2 => by simp [charListLt] at h2
  | a :: as, b :: bs, c :: cs, h1, h2 => by
    by_cases hab : a < b
    · by_cases hbc : b < c
      · simp [charListLt, lt_trans hab hbc]
      · by_cases hcb : c < b
        · simp [charListLt, hbc, hcb] at h2
        · have hbceq : b = c := le_antisymm (not_lt.mp hcb) (not_lt.mp hbc)
          subst hbceq
          simp [charListLt, hab]
    · by_cases hba : b < a
      · simp [charListLt, hab, hba] at h1
      · have habeq : a = b := le_antisymm (not_lt.mp hba) (not_lt.mp hab)
        subst habeq
        simp only [charListLt, if_neg hab, if_neg hba] at h1
        by_cases hac : a < c
        · simp [charListLt, hac]
        · by_cases hca : c < a
          · simp [charListLt, hac, hca] at h2
          · have haceq : a = c := le_antisymm (not_lt.mp hca) (not_lt.mp hac)
            subst haceq
            simp only [charListLt, if_neg hac, if_neg hca] at h2 ⊢
            exact charListLt_trans as bs cs h1 h2

theorem charListLt_total3 :
    ∀ a b, charListLt a b = true ∨ charListLt b a = true ∨ a = b
  | [], [] => Or.inr (Or.inr rfl)
  | [], _ :: _ => Or.inl (by simp [charListLt])
  | _ :: _, [] => Or.inr (Or.inl (by simp [charListLt]))
  | a :: as, b :: bs => by
    by_cases hab : a < b
    · exact Or.inl (by simp [charListLt, hab])
    · by_cases hba : b < a
      · exact Or.inr (Or.inl (by simp [charListLt, hba]))
      · have habeq : a = b := le_antisymm (not_lt.mp hba) (not_lt.mp hab)
        subst habeq
        rcases charListLt_total3 as bs with h | h | h
        · exact Or.inl (by simp [charListLt, h])
        · exact Or.inr (Or.inl (by simp [charListLt, h]))
        · exact Or.inr (Or.inr (by rw [h]))

theorem strLtB_irrefl (s : String) : strLtB s s = false :=
  charListLt_irrefl s.data

theorem strLtB_trans {a b c : String} (h1 : strLtB a b = true) (h2 : strLtB b c = true) :
    strLtB a c = true :=
  charListLt_trans a.data b.data c.data h1 h2

theorem strLtB_total3 (a b : String) :
    strLtB a b = true ∨ strLtB b a = true ∨ a = b := by
  rcases charListLt_total3 a.data b.data with h | h | h
  · exact Or.inl h
  · exact Or.inr (Or.inl h)
  · refine Or.inr (Or.inr ?_)
    cases a with
    | mk da => cases b with
      | mk db => exact congrArg String.mk h

theorem strLtB_asymm {a b : String} (h : strLtB a b = true) : strLtB b a = false := by
  cases h2 : strLtB b a
  · rfl
  · have := strLtB_trans h h2
    rw [strLtB_irrefl] at this
    cases this

theorem strLeB_trans {a b c : String}
    (h1 : strLeB a b = true) (h2 : strLeB b c = true) : strLeB a c = true := by
  simp only [strLeB, Bool.not_eq_true'] at h1 h2 ⊢
  cases hca : strLtB c a
  · rfl
  · rcases strLtB_total3 c b with h | h | h
    · rw [h] at h2; cases h2
    · have := strLtB_trans h hca
      rw [this] at h1; cases h1
    · subst h; rw [hca] at h1; cases h1

theorem strLeB_total (a b : String) : strLeB a b = true ∨ strLeB b a = true := by
  simp only [strLeB, Bool.not_eq_true']
  cases h : strLtB b a
  · exact Or.inl rfl
  · exact Or.inr (strLtB_asymm h)

/-! ### Boolean sort relations used by the pipeline -/

theorem natLtB_trans {a b c : Nat} (h1 : natLtB a b = true) (h2 : natLtB b c = true) :
    natLtB a c = true := by
  simp only [natLtB, decide_eq_true_eq] at h1 h2 ⊢
  omega

theorem natLtB_total3 (a b : Nat) : natLtB a b = true ∨ natLtB b a = true ∨ a = b := by
  simp only [natLtB, decide_eq_true_eq]
  omega

/-- Sort key: compare by `f` first (strictly), tie-break by `g`
(lexicographic comparison, as pandas `sort_values` on two keys). -/

theorem lexBy_trans [DecidableEq κ] {ltA : κ → κ → Bool} {leB : β → β → Bool}
    {f : γ → κ} {g : γ → β}
    (hlt : ∀ a b c, ltA a b = true → ltA b c = true → ltA a c = true)
    (hle : ∀ a b c, leB a b = true → leB b c = true → leB a c = true)
    {x y z : γ} (h1 : lexBy ltA leB f g x y = true) (h2 : lexBy ltA leB f g y z = true) :
    lexBy ltA leB f g x z = true := by
  simp only [lexBy, Bool.or_eq_true, Bool.and_eq_true, decide_eq_true_eq] at h1 h2 ⊢
  rcases h1 with h1 | ⟨h1e, h1b⟩
  · rcases h2 with h2 | ⟨h2e, h2b⟩
    · exact Or.inl (hlt _ _ _ h1 h2)
    · rw [h2e] at h1
      exact Or.inl h1
  · rcases h2 with h2 | ⟨h2e, h2b⟩
    · rw [h1e]
      exact Or.inl h2
    · exact Or.inr ⟨h1e.trans h2e, hle _ _ _ h1b h2b⟩

theorem lexBy_total [DecidableEq κ] {ltA : κ → κ → Bool} {leB : β → β → Bool}
    {f : γ → κ} {g : γ → β}
    (hlt3 : ∀ a b, ltA a b = true ∨ ltA b a = true ∨ a = b)
    (hle2 : ∀ a b, leB a b = true ∨ leB b a = true)
    (x y : γ) : lexBy ltA leB f g x y = true ∨ lexBy ltA leB f g y x = true := by
  simp only [lexBy, Bool.or_eq_true, Bool.and_eq_true, decide_eq_true_eq]
  rcases hlt3 (f x) (f y) with h | h | h
  · exact Or.inl (Or.inl h)
  · exact Or.inr (Or.inl h)
  · rcases hle2 (g x) (g y) with hb | hb
    · exact Or.inl (Or.inr ⟨h, hb⟩)
    · exact Or.inr (Or.inr ⟨h.symm, hb⟩)

/-- Ascending comparison by a projected linearly ordered key. -/

theorem leBy_trans [LinearOrder β] {f : γ → β} {x y z : γ}
    (h1 : leBy f x y = true) (h2 : leBy f y z = true) : leBy f x z = true := by
  simp only [leBy, decide_eq_true_eq] at h1 h2 ⊢
  exact le_trans h1 h2

theorem leBy_total [LinearOrder β] (f : γ → β) (x y : γ) :
    leBy f x y = true ∨ leBy f y x = true := by
  simp only [leBy, decide_eq_true_eq]
  exact le_total (f x) (f y)

theorem geBy_trans [LinearOrder β] {f : γ → β} {x y z : γ}
    (h1 : geBy f x y = true) (h2 : geBy f y z = true) : geBy f x z = true := by
  simp only [geBy, decide_eq_true_eq] at h1 h2 ⊢
  exact le_trans h2 h1

theorem geBy_total [LinearOrder β] (f : γ → β) (x y : γ) :
    geBy f x y = true ∨ geBy f y x = true := by
  simp only [geBy, decide_eq_true_eq]
  exact le_total (f y) (f x)

/-! ### String normalization (pandas `.str` operations) -/

/-- ASCII lower-casing of one character (pandas `.str.lower` on the
skill tags, which are ASCII). -/

theorem pairwise_take_drop {R : α → α → Prop} {l : List α} (h : l.Pairwise R)
    {n : Nat} {a b : α} (ha : a ∈ l.take n) (hb : b ∈ l.drop n) : R a b := by
  have hsub : [a, b] <+ l := by
    have h2 := List.Sublist.append (List.singleton_sublist.mpr ha) (List.singleton_sublist.mpr hb)
    simpa [List.take_append_drop] using h2
  exact List.pairwise_iff_forall_sublist.mp h hsub

theorem pair_sublist_of_mem {a b : α} {l : List α} (ha : a ∈ l) (hb : b ∈ l)
    (hne : a ≠ b) : [a, b] <+ l ∨ [b, a] <+ l := by
  induction l with
  | nil => cases ha
  | cons x xs ih =>
    rcases List.mem_cons.mp ha with rfl | ha2
    · have hb2 : b ∈ xs := by
        rcases List.mem_cons.mp hb with h | h
        · exact absurd h.symm hne
        · exact h
      exact Or.inl (List.Sublist.cons₂ a (List.singleton_sublist.mpr hb2))
    · rcases List.mem_cons.mp hb with rfl | hb2
      · exact Or.inr (List.Sublist.cons₂ b (List.singleton_sublist.mpr ha2))
      · rcases ih ha2 hb2 with h | h
        · exact Or.inl (List.Sublist.cons x h)
        · exact Or.inr (List.Sublist.cons x h)

theorem count_le_cons [BEq α] (a b : α) (l : List α) : l.count a ≤ (b :: l).count a := by
  rw [List.count_cons]
  split <;> omega

theorem headPerGroupGo_sublist (k : Nat) (key : α → String) :
    ∀ (l : List α) (prev : List String), headPerGroupGo k key l prev <+ l
  | [], _ => List.Sublist.refl _
  | x :: xs, prev => by
    simp only [headPerGroupGo]
    split
    · exact List.Sublist.cons₂ x (headPerGroupGo_sublist k key xs _)
    · exact List.Sublist.cons x (headPerGroupGo_sublist k key xs _)

theorem headPerGroupGo_count_lt (k : Nat) (key : α → String) :
    ∀ (l : List α) (prev : List String) (q : α), q ∈ headPerGroupGo k key l prev →
      prev.count (key q) < k
  | [], _, q, hq => by cases hq
  | x :: xs, prev, q, hq => by
    revert hq
    simp only [headPerGroupGo]
    split
    case isTrue h =>
      intro hq
      rcases List.mem_cons.mp hq with rfl | hq2
      · exact h
      · have h2 := headPerGroupGo_count_lt k key xs _ q hq2
        have h3 := count_le_cons (key q) (key x) prev
        omega
    case isFalse h =>
      intro hq
      have h2 := headPerGroupGo_count_lt k key xs _ q hq
      have h3 := count_le_cons (key q) (key x) prev
      omega

theorem headPerGroupGo_drop_later (k : Nat) (key : α → String) :
    ∀ (l : List α) (prev : List String) (p q : α), l.Nodup →
      [p, q] <+ l → key p = key q → p ∉ headPerGroupGo k key l prev →
      q ∉ headPerGroupGo k key l prev
  | [], _, p, q, _, hsub, _, _ => by
    have := hsub.length_le
    simp at this
  | x :: xs, prev, p, q, hnd, hsub, hkey, hp => by
    cases hsub with
    | cons _ h2 =>
      have hq_xs : q ∈ xs := h2.subset (by simp)
      have hx_not : x ∉ xs := (List.nodup_cons.mp hnd).1
      have hqx : q ≠ x := fun h => hx_not (h ▸ hq_xs)
      simp only [headPerGroupGo]
      split
      case isTrue hcond =>
        intro hq
        rcases List.mem_cons.mp hq with h | hq2
        · exact hqx h
        · have hp2 : p ∉ headPerGroupGo k key xs (key x :: prev) := by
            intro hmem
            apply hp
            simp only [headPerGroupGo]
            rw [if_pos hcond]
            exact List.mem_cons_of_mem x hmem
          exact headPerGroupGo_drop_later k key xs _ p q (List.nodup_cons.mp hnd).2
            h2 hkey hp2 hq2
      case isFalse hcond =>
        intro hq
        have hp2 : p ∉ headPerGroupGo k key xs (key x :: prev) := by
          intro hmem
          apply hp
          simp only [headPerGroupGo]
          rw [if_neg hcond]
          exact hmem
        exact headPerGroupGo_drop_later k key xs _ p q (List.nodup_cons.mp hnd).2
          h2 hkey hp2 hq
    | cons₂ _ h2 =>
      simp only [headPerGroupGo] at hp ⊢
      by_cases hc : prev.count (key x) < k
      · exfalso
        apply hp
        rw [if_pos hc]
        exact List.mem_cons_self _ _
      · rw [if_neg hc]
        intro hq
        have hcount := headPerGroupGo_count_lt k key xs (key x :: prev) q hq
        have hkq : (key x == key q) = true := by rw [hkey]; exact beq_self_eq_true _
        rw [List.count_cons, if_pos hkq] at hcount
        rw [hkey] at hc
        omega

theorem headPerGroupGo_countP (k : Nat) (key : α → String) (s : String) :
    ∀ (l : List α) (prev : List String),
      (headPerGroupGo k key l prev).countP (fun x => key x == s)
        = min (k - prev.count s) (l.countP (fun x => key x == s))
  | [], prev => by simp [headPerGroupGo]
  | x :: xs, prev => by
    simp only [headPerGroupGo]
    have hrec := headPerGroupGo_countP k key s xs (key x :: prev)
    by_cases hx : key x = s
    · have hbeq2 : (key x == s) = true := by rw [hx]; exact beq_self_eq_true _
      have hcnt : (key x :: prev).count s = prev.count s + 1 := by
        rw [List.count_cons, if_pos hbeq2]
      rw [hcnt] at hrec
      have hx2 : prev.count (key x) = prev.count s := by rw [hx]
      by_cases hcond : prev.count (key x) < k
      · rw [if_pos hcond, List.countP_cons, List.countP_cons, hrec, if_pos hbeq2]
        omega
      · rw [if_neg hcond, List.countP_cons, hrec, if_pos hbeq2]
        omega
    · have hbeq2 : ¬((key x == s) = true) := by
        simp only [beq_iff_eq]
        exact hx
      have hcnt : (key x :: prev).count s = prev.count s := by
        rw [List.count_cons, if_neg hbeq2]
        omega
      rw [hcnt] at hrec
      by_cases hcond : prev.count (key x) < k
      · rw [if_pos hcond, List.countP_cons, List.countP_cons, hrec, if_neg hbeq2]
        omega
      · rw [if_neg hcond, List.countP_cons, hrec, if_neg hbeq2]
        omega

theorem sum_groupCounts [DecidableEq α] (le : α → α → Bool) (rows : List α) :
    ((groupCounts le rows).map Prod.snd).sum = rows.length := by
  unfold groupCounts
  rw [List.map_map]
  have hperm := (sortBy_perm le (dedupFS rows)).map (fun k => rows.count k)
  rw [show (Prod.snd ∘ fun k => (k, rows.count k)) = fun k => rows.count k from rfl]
  rw [hperm.sum_eq]
  exact sum_counts_dedupFS rows

theorem nodup_groupCounts [DecidableEq α] (le : α → α → Bool) (rows : List α) :
    (groupCounts le rows).Nodup := by
  unfold groupCounts
  exact List.Nodup.map (fun a b h => congrArg Prod.fst h)
    (((sortBy_perm le (dedupFS rows)).nodup_iff).mpr (nodup_dedupFS rows))

theorem pairwise_groupCounts [DecidableEq α] (le : α → α → Bool)
    (htrans : ∀ a b c, le a b = true → le b c = true → le a c = true)
    (htotal : ∀ a b, le a b = true ∨ le b a = true)
    (rows : List α) :
    (groupCounts le rows).Pairwise (fun a b => le a.1 b.1 = true) := by
  unfold groupCounts
  rw [List.pairwise_map]
  exact pairwise_sortBy le htrans htotal _

theorem mem_value_counts [DecidableEq α] {l : List α} {e : α × Nat}
    (h : e ∈ value_counts l) : e.2 = l.count e.1 ∧ e.1 ∈ l := by
  unfold value_counts at h
  rw [mem_sortBy] at h
  rcases List.mem_map.mp h with ⟨k, hk, rfl⟩
  exact ⟨rfl, (mem_dedupFS _ _).mp hk⟩

theorem mem_groupVals [DecidableEq κ] {le : κ → κ → Bool} {rows : List (κ × β)}
    {g : κ × List β} (h : g ∈ groupVals le rows) :
    g.1 ∈ rows.map Prod.fst
    ∧ g.2 = rows.filterMap (fun q => if q.1 = g.1 then some q.2 else none) := by
  unfold groupVals at h
  rcases List.mem_map.mp h with ⟨k, hk, rfl⟩
  rw [mem_sortBy] at hk
  exact ⟨(mem_dedupFS _ _).mp hk, rfl⟩

theorem nodup_keys_groupVals [DecidableEq κ] (le : κ → κ → Bool) (rows : List (κ × β)) :
    ((groupVals le rows).map Prod.fst).Nodup := by
  unfold groupVals
  rw [List.map_map]
  rw [show (Prod.fst ∘ fun k =>
      (k, rows.filterMap (fun q => if q.1 = k then some q.2 else none))) = id from rfl]
  rw [List.map_id]
  exact ((sortBy_perm le (dedupFS (rows.map Prod.fst))).nodup_iff).mpr (nodup_dedupFS _)

/-! ### Transitivity and totality of the concrete sort relations -/

theorem monthKeyLe_trans {a b c : Nat × String}
    (h1 : monthKeyLe a b = true) (h2 : monthKeyLe b c = true) : monthKeyLe a c = true := by
  unfold monthKeyLe at h1 h2 ⊢
  refine lexBy_trans ?_ ?_ h1 h2
  · exact fun _ _ _ h3 h4 => natLtB_trans h3 h4
  · exact fun _ _ _ h3 h4 => strLeB_trans h3 h4

theorem monthKeyLe_total (a b : Nat × String) :
    monthKeyLe a b = true ∨ monthKeyLe b a = true := by
  unfold monthKeyLe
  refine lexBy_total ?_ ?_ a b
  · exact natLtB_total3
  · exact strLeB_total

theorem skillKeyLe_trans {a b c : String × String}
    (h1 : skillKeyLe a b = true) (h2 : skillKeyLe b c = true) : skillKeyLe a c = true := by
  unfold skillKeyLe at h1 h2 ⊢
  refine lexBy_trans ?_ ?_ h1 h2
  · exact fun _ _ _ h3 h4 => strLtB_trans h3 h4
  · exact fun _ _ _ h3 h4 => strLeB_trans h3 h4

theorem skillKeyLe_total (a b : String × String) :
    skillKeyLe a b = true ∨ skillKeyLe b a = true := by
  unfold skillKeyLe
  refine lexBy_total ?_ ?_ a b
  · exact strLtB_total3
  · exact strLeB_total

theorem roleCountLe_trans {a b c : (String × String) × Nat}
    (h1 : roleCountLe a b = true) (h2 : roleCountLe b c = true) : roleCountLe a c = true := by
  unfold roleCountLe at h1 h2 ⊢
  refine lexBy_trans ?_ ?_ h1 h2
  · exact fun _ _ _ h3 h4 => strLtB_trans h3 h4
  · intro x y z hx hy
    simp only [decide_eq_true_eq] at hx hy ⊢
    omega

theorem roleCountLe_total (a b : (String × String) × Nat) :
    roleCountLe a b = true ∨ roleCountLe b a = true := by
  unfold roleCountLe
  refine lexBy_total ?_ ?_ a b
  · exact strLtB_total3
  · intro x y
    simp only [decide_eq_true_eq]
    omega

theorem optValLe_trans : ∀ {a b c : Option ℚ},
    optValLe a b = true → optValLe b c = true → optValLe a c = true
  | some x, some y, some z, h1, h2 => by
    simp only [optValLe, decide_eq_true_eq] at h1 h2 ⊢
    exact le_trans h1 h2
  | some _, some _, none, _, _ => rfl
  | some _, none, none, _, _ => rfl
  | none, none, none, _, _ => rfl
  | some _, none, some _, _, h2 => by cases h2
  | none, some _, _, h1, _ => by cases h1
  | none, none, some _, _, h2 => by cases h2

theorem optValLe_total : ∀ (a b : Option ℚ), optValLe a b = true ∨ optValLe b a = true
  | some x, some y => by
    simp only [optValLe, decide_eq_true_eq]
    exact le_total x y
  | some _, none => Or.inl rfl
  | none, some _ => Or.inr rfl
  | none, none => Or.inl rfl

theorem medSortLe_trans {a b c : String × Option ℚ}
    (h1 : medSortLe a b = true) (h2 : medSortLe b c = true) : medSortLe a c = true :=
  optValLe_trans h1 h2

theorem medSortLe_total (a b : String × Option ℚ) :
    medSortLe a b = true ∨ medSortLe b a = true :=
  optValLe_total a.2 b.2

theorem filterMap_sel_map [DecidableEq κ] (f : α → κ) (g : α → β) (k : κ) (l : List α) :
    (l.map (fun r => (f r, g r))).filterMap
      (fun q => if q.1 = k then some q.2 else none)
      = (l.filter (fun r => decide (f r = k))).map g := by
  induction l with
  | nil => rfl
  | cons r rest ih =>
    simp only [List.map_cons, List.filterMap_cons, List.filter_cons]
    by_cases h : f r = k
    · simp [h, ih]
    · simp [h, ih]

theorem title_mem_top_jobs {df : Dataset} {t : String}
    (h : t ∈ (titleSalaryRows df).map Prod.fst) : t ∈ top_jobs df := by
  simp only [titleSalaryRows, List.map_map, Function.comp] at h
  rcases List.mem_map.mp h with ⟨r, hr, hteq⟩
  have h2 := (List.mem_filter.mp (show r ∈ (df_US df).filter
      (fun r => (top_jobs df).contains r.job_title_short) from hr)).2
  rw [← hteq]
  simpa [List.contains] using h2

theorem filter_title_df_roles (df : Dataset) (k : String) (hk : k ∈ top_jobs df) :
    (df_roles df).filter (fun r => decide (r.job_title_short = k))
      = (df_US df).filter (fun r => r.job_title_short == k) := by
  simp only [df_roles]
  rw [List.filter_filter]
  apply List.filter_congr
  intro r _
  by_cases h : r.job_title_short = k
  · subst h
    simp [List.contains, hk]
  · simp [h]

theorem forall₂_filter {R : α → α → Prop} {p : α → Bool}
    (hresp : ∀ a b, R a b → p a = p b) :
    ∀ {l1 l2 : List α}, List.Forall₂ R l1 l2 →
      List.Forall₂ R (l1.filter p) (l2.filter p)
  | [], [], _ => List.Forall₂.nil
  | a :: t1, b :: t2, h => by
    cases h with
    | cons hab htail =>
      simp only [List.filter_cons]
      by_cases hpa : p a = true
      · rw [if_pos hpa, if_pos (by rw [← hresp a b hab]; exact hpa)]
        exact List.Forall₂.cons hab (forall₂_filter hresp htail)
      · rw [if_neg hpa, if_neg (by rw [← hresp a b hab]; exact hpa)]
        exact forall₂_filter hresp htail
  | [], _ :: _, h => by cases h
  | _ :: _, [], h => by cases h

theorem forall₂_map_eq {R : α → α → Prop} {f : α → β}
    (hresp : ∀ a b, R a b → f a = f b) :
    ∀ {l1 l2 : List α}, List.Forall₂ R l1 l2 → l1.map f = l2.map f
  | [], [], _ => rfl
  | a :: t1, b :: t2, h => by
    cases h with
    | cons hab htail =>
      simp only [List.map_cons]
      rw [hresp a b hab, forall₂_map_eq hresp htail]
  | [], _ :: _, h => by cases h
  | _ :: _, [], h => by cases h

theorem skillsRel_isSome : ∀ {o1 o2 : Option (List String)}, skillsRel o1 o2 →
    o1.isSome = o2.isSome
  | none, none, _ => rfl
  | some _, some _, _ => rfl
  | some _, none, h => h.elim
  | none, some _, h => h.elim

theorem explode_norm_block {a b : PostingRecord} (h : recNormEq a b) :
    (explodeSkillSalary a).map normSkillPair
      = (explodeSkillSalary b).map normSkillPair := by
  obtain ⟨hc, hd, ht, hts, hsal, hskills⟩ := h
  unfold explodeSkillSalary
  cases ha : a.job_skills with
  | none =>
    cases hb : b.job_skills with
    | none => simp [normSkillPair, hsal]
    | some lb =>
      rw [ha, hb] at hskills
      exact hskills.elim
  | some la =>
    cases hb : b.job_skills with
    | none =>
      rw [ha, hb] at hskills
      exact hskills.elim
    | some lb =>
      rw [ha, hb] at hskills
      have hf : List.Forall₂ skillNormEq la lb := hskills
      cases la with
      | nil =>
        cases hf
        simp [normSkillPair, hsal]
      | cons s ss =>
        cases hf with
        | cons hst htail =>
          rw [List.map_map, List.map_map, hsal]
          refine forall₂_map_eq ?_ (List.Forall₂.cons hst htail)
          intro x y hxy
          simp only [Function.comp, normSkillPair, Option.map_some']
          rw [show normSkill x = normSkill y from hxy]

theorem flatMap_map_congr : ∀ {l1 l2 : Dataset}, List.Forall₂ recNormEq l1 l2 →
    (l1.flatMap explodeSkillSalary).map normSkillPair
      = (l2.flatMap explodeSkillSalary).map normSkillPair
  | [], [], _ => rfl
  | a :: t1, b :: t2, h => by
    cases h with
    | cons hab htail =>
      simp only [List.flatMap_cons, List.map_append]
      rw [explode_norm_block hab, flatMap_map_congr htail]
  | [], _ :: _, h => by cases h
  | _ :: _, [], h => by cases h

/-! ### The claims -/

/-- Claim C1: in aggregation (c), flattening produces exactly one
(role, skill) observation per skill of each record passing the country
and role filters — so the number of observations, and equally the sum
of the per-(role, skill) counts, is the sum of the skill-list lengths
over the filtered records (zero for a record with no skills). -/
theorem claim1_flatten_observation_totals (df : Dataset) :
    (skillObs df).length = ((df_top_roles df).map skillLen).sum
    ∧ ((skill_counts df).map Prod.snd).sum = ((df_top_roles df).map skillLen).sum := by
  have h1 : (skillObs df).length = ((df_top_roles df).map skillLen).sum :=
    roleSkillRows_obs_length (df_top_roles df)
  exact ⟨h1, (sum_groupCounts skillKeyLe (skillObs df)).trans h1⟩

/-- Claim C3: aggregation (a) returns one ((month number, month label),
count) row per month present, ordered ascending by month number, and
the counts sum to exactly the number of records of the dataset whose
country equals the target and whose posted date is non-null. -/
theorem claim3_monthly_counts_sum_and_order (df : Dataset) (c : String) :
    ((monthly_trends (filterCountry df c)).map Prod.snd).sum
      = (df.filter (fun r => r.job_country == c && r.job_posted_date.isSome)).length
    ∧ ((monthly_trends (filterCountry df c)).map (fun p => p.1.1)).Pairwise (· ≤ ·) := by
  constructor
  · have hp := (sortBy_perm (leBy (fun p : (Nat × String) × Nat => p.1.1))
      (groupCounts monthKeyLe (monthRowsOf (filterCountry df c)))).map Prod.snd
    simp only [monthly_trends]
    rw [hp.sum_eq, sum_groupCounts, length_monthRowsOf]
    simp only [filterCountry]
    rw [List.filter_filter]
    exact congrArg List.length (List.filter_congr (fun r _ => Bool.and_comm _ _))
  · simp only [monthly_trends]
    rw [List.pairwise_map]
    have hs := pairwise_sortBy (leBy (fun p : (Nat × String) × Nat => p.1.1))
      (fun _ _ _ h1 h2 => leBy_trans h1 h2)
      (leBy_total (fun p : (Nat × String) × Nat => p.1.1))
      (groupCounts monthKeyLe (monthRowsOf (filterCountry df c)))
    exact hs.imp (fun h => by simpa [leBy] using h)

/-- Claim C2: each of the five aggregation operations applied to an
empty dataset returns an empty summary table; being total functions of
the dataset, they raise no error. -/
theorem claim2_empty_dataset_empty_tables :
    monthly_trends (df_US []) = [] ∧ top_roles [] = [] ∧ top5_per_role [] = []
    ∧ (∀ role, chartSub [] role = []) ∧ df_grouped [] = []
    ∧ df_top_analyst_skills [] = [] :=
  ⟨rfl, rfl, rfl, fun _ => rfl, rfl, rfl⟩

/-- Claim C9: aggregation (c) groups skill strings without any
normalization: a record whose skill list holds both `"SQL"` and
`"sql"` — two distinct strings that normalize identically — produces
two distinct `(role, skill)` groups of count one each, rather than one
merged group. -/
theorem claim9_no_normalization_in_skill_counts :
    skill_counts exDfCase
      = [(("Data Analyst", "SQL"), 1), (("Data Analyst", "sql"), 1)]
    ∧ normSkill "SQL" = normSkill "sql" ∧ "SQL" ≠ "sql" := by
  refine ⟨by decide, by decide, by decide⟩

/-- Claim C4: no aggregation mutates the input dataset.  The script's
top-level flow returns the dataset it loaded unchanged; every derived
frame is a filtered copy (a sublist of unchanged records of its
parent), and the month-column assignment extends each record of the
`df_US` copy without altering the record itself. -/
theorem claim4_pipeline_no_mutation (df : Dataset) :
    (runPipeline df).df_out = df
    ∧ df_US df <+ df
    ∧ (dfUSWithMonth df).map Prod.fst = df_US df
    ∧ df_top_roles df <+ df_US df
    ∧ df_roles df <+ df_US df
    ∧ df_DA df <+ df_US df
    ∧ df_DA_dropna df <+ df_DA df := by
  refine ⟨rfl, List.filter_sublist _, ?_, List.filter_sublist _, List.filter_sublist _,
    List.filter_sublist _, List.filter_sublist _⟩
  simp only [dfUSWithMonth, List.map_map]
  rw [show (Prod.fst ∘ fun r : PostingRecord =>
      (r, Option.map (fun m => (m, monthLabel m)) r.job_posted_date)) = id from rfl]
  exact List.map_id _

/-- Claim C8: aggregation (b) is deterministic: applied twice to the
same dataset it returns the same ordered (title, count) sequence. -/
theorem claim8_top_titles_deterministic (d1 d2 : Dataset) (h : d1 = d2) :
    top_roles d1 = top_roles d2 :=
  congrArg top_roles h

theorem claim8_top_titles_deterministic_witness :
    top_roles exDfSalary = top_roles exDfSalary :=
  claim8_top_titles_deterministic exDfSalary exDfSalary rfl

/-- Claim C10: in aggregation (e) a record with a null raw job title is
treated as not matching the case-insensitive substring filter and is
silently excluded: the output equals the output on the dataset with
such records removed, and every record surviving the title filter has a
non-null raw title. -/
theorem claim10_null_title_excluded (df : Dataset) :
    df_top_analyst_skills df
      = df_top_analyst_skills (df.filter (fun r => r.job_title.isSome))
    ∧ (df_DA df).all (fun r => r.job_title.isSome) = true := by
  have hDA : df_DA df = df_DA (df.filter (fun r => r.job_title.isSome)) := by
    unfold df_DA df_US filterCountry
    rw [List.filter_filter, List.filter_filter, List.filter_filter]
    apply List.filter_congr
    intro r _
    cases ht : r.job_title with
    | none => simp [titleMatchDA, ht]
    | some t => simp [titleMatchDA, ht]
  constructor
  · unfold df_top_analyst_skills df_analyst_skill_salary skillSalaryRows df_DA_norm
      df_DA_exploded df_DA_dropna
    rw [hDA]
  · rw [List.all_eq_true]
    intro r hr
    have h2 := (List.mem_filter.mp hr).2
    cases ht : r.job_title with
    | none => simp [titleMatchDA, ht] at h2
    | some t => rfl

/-- Claim C5: in aggregation (d), every output title is among the 10
most frequent normalized titles of the country-filtered subset (its
frequency is at least that of every title outside the selection), each
title's value is the median of only that title's non-null salaries
within the country-filtered subset, and the output is ordered ascending
by median value (null medians last). -/
theorem claim5_median_salary_by_title (df : Dataset) :
    (∀ p, p ∈ df_grouped df → p.1 ∈ top_jobs df)
    ∧ (∀ p t, p ∈ df_grouped df → t ∈ (df_US df).map (fun r => r.job_title_short) →
        t ∉ top_jobs df →
        ((df_US df).map (fun r => r.job_title_short)).count t
          ≤ ((df_US df).map (fun r => r.job_title_short)).count p.1)
    ∧ (∀ p, p ∈ df_grouped df →
        p.2 = medianOpt (((df_US df).filter (fun r => r.job_title_short == p.1)).map
          (fun r => r.salary_year_avg)))
    ∧ (df_grouped df).Pairwise (fun a b => optValLe a.2 b.2 = true) := by
  have hmem : ∀ p, p ∈ df_grouped df →
      ∃ g, g ∈ groupVals strLeB (titleSalaryRows df) ∧ p = (g.1, medianOpt g.2) := by
    intro p hp
    simp only [df_grouped] at hp
    rw [mem_sortBy] at hp
    rcases List.mem_map.mp hp with ⟨g, hg, hpeq⟩
    exact ⟨g, hg, hpeq.symm⟩
  have ha : ∀ p, p ∈ df_grouped df → p.1 ∈ top_jobs df := by
    intro p hp
    rcases hmem p hp with ⟨g, hg, rfl⟩
    exact title_mem_top_jobs (mem_groupVals hg).1
  refine ⟨ha, ?_, ?_, ?_⟩
  · intro p t hp ht htn
    have hptop := ha p hp
    simp only [top_jobs] at hptop
    rcases List.mem_map.mp hptop with ⟨ep, hep, hfst⟩
    have hepvc : ep ∈ value_counts ((df_US df).map (fun r => r.job_title_short)) :=
      List.mem_of_mem_take hep
    have hepval := (mem_value_counts hepvc).1
    have het : (t, ((df_US df).map (fun r => r.job_title_short)).count t)
        ∈ value_counts ((df_US df).map (fun r => r.job_title_short)) := by
      simp only [value_counts]
      rw [mem_sortBy]
      exact List.mem_map.mpr ⟨t, (mem_dedupFS _ _).mpr ht, rfl⟩
    have hetd : (t, ((df_US df).map (fun r => r.job_title_short)).count t)
        ∈ (value_counts ((df_US df).map (fun r => r.job_title_short))).drop 10 := by
      have hin : (t, ((df_US df).map (fun r => r.job_title_short)).count t)
          ∈ (value_counts ((df_US df).map (fun r => r.job_title_short))).take 10
            ++ (value_counts ((df_US df).map (fun r => r.job_title_short))).drop 10 := by
        rw [List.take_append_drop]
        exact het
      rcases List.mem_append.mp hin with h | h
      · refine absurd ?_ htn
        simp only [top_jobs]
        exact List.mem_map.mpr
          ⟨(t, ((df_US df).map (fun r => r.job_title_short)).count t), h, rfl⟩
      · exact h
    have hvc := pairwise_sortBy (geBy (Prod.snd : String × Nat → Nat))
      (fun _ _ _ h1 h2 => geBy_trans h1 h2)
      (geBy_total (Prod.snd : String × Nat → Nat))
      ((dedupFS ((df_US df).map (fun r => r.job_title_short))).map
        (fun k => (k, ((df_US df).map (fun r => r.job_title_short)).count k)))
    have hrel := pairwise_take_drop hvc hep hetd
    simp only [geBy, decide_eq_true_eq] at hrel
    rw [hepval, hfst] at hrel
    exact hrel
  · intro p hp
    rcases hmem p hp with ⟨g, hg, rfl⟩
    rcases mem_groupVals hg with ⟨hk1, hk2⟩
    show medianOpt g.2 = _
    rw [hk2]
    have hsel : (titleSalaryRows df).filterMap
        (fun q => if q.1 = g.1 then some q.2 else none)
        = ((df_roles df).filter (fun r => decide (r.job_title_short = g.1))).map
          (fun r => r.salary_year_avg) := by
      simp only [titleSalaryRows]
      exact filterMap_sel_map (fun r => r.job_title_short)
        (fun r => r.salary_year_avg) g.1 (df_roles df)
    rw [hsel, filter_title_df_roles df g.1 (title_mem_top_jobs hk1)]
  · simp only [df_grouped]
    exact pairwise_sortBy medSortLe (fun _ _ _ h1 h2 => medSortLe_trans h1 h2)
      medSortLe_total _

theorem claim5_median_salary_by_title_witness :
    (some (100 : ℚ))
      = medianOpt (((df_US exDfSalary).filter
          (fun r => r.job_title_short == "Data Analyst")).map
        (fun r => r.salary_year_avg)) :=
  (claim5_median_salary_by_title exDfSalary).2.2.1 ("Data Analyst", some 100) (by decide)

/-- Claim C6: in aggregation (c), for every role the selection keeps
the (up to) 5 pairs of that role with the highest counts: every kept
pair's count is at least every dropped same-role pair's count; among
equal counts the pair whose skill comes first in the key-sorted input
order of `skill_counts` is preferred (stable tie-break); exactly
`min 5 _` pairs of each role are kept, all taken from `skill_counts`;
and the per-role chart table holds exactly the kept pairs of that role,
re-sorted ascending by count (inverting the ranking order). -/
theorem claim6_top_skills_selection (df : Dataset) (role : String) :
    ((chartSub df role).map Prod.snd).Pairwise (fun a b => a ≤ b)
    ∧ (∀ p, p ∈ chartSub df role ↔ p ∈ top5_per_role df ∧ p.1.1 = role)
    ∧ (∀ p, p ∈ top5_per_role df → p ∈ skill_counts df)
    ∧ (top5_per_role df).countP (fun p => p.1.1 == role)
        = min 5 ((skill_counts df).countP (fun p => p.1.1 == role))
    ∧ (∀ p q, p ∈ top5_per_role df → q ∈ skill_counts df → q.1.1 = p.1.1 →
        q ∉ top5_per_role df → q.2 ≤ p.2)
    ∧ (∀ p q, p ∈ skill_counts df → q ∈ skill_counts df → p.1.1 = q.1.1 →
        p.2 = q.2 → strLtB p.1.2 q.1.2 = true → q ∈ top5_per_role df →
        p ∈ top5_per_role df) := by
  have hsorted := pairwise_sortBy roleCountLe (fun _ _ _ h1 h2 => roleCountLe_trans h1 h2)
    roleCountLe_total (skill_counts df)
  have hnodup : (sortedSkillCounts df).Nodup :=
    ((sortBy_perm roleCountLe (skill_counts df)).nodup_iff).mpr
      (nodup_groupCounts skillKeyLe (skillObs df))
  have hmem_top : ∀ p, p ∈ top5_per_role df → p ∈ skill_counts df := by
    intro p hp
    have hs := (headPerGroupGo_sublist 5 (fun p : (String × String) × Nat => p.1.1)
      (sortedSkillCounts df) []).subset hp
    exact (mem_sortBy roleCountLe p (skill_counts df)).mp hs
  refine ⟨?_, ?_, hmem_top, ?_, ?_, ?_⟩
  · simp only [chartSub]
    rw [List.pairwise_map]
    have hs := pairwise_sortBy (leBy (Prod.snd : (String × String) × Nat → Nat))
      (fun _ _ _ h1 h2 => leBy_trans h1 h2)
      (leBy_total (Prod.snd : (String × String) × Nat → Nat))
      ((top5_per_role df).filter (fun p => p.1.1 == role))
    exact hs.imp (fun h => by simpa [leBy] using h)
  · intro p
    simp only [chartSub]
    rw [mem_sortBy, List.mem_filter]
    constructor
    · rintro ⟨h1, h2⟩
      exact ⟨h1, by simpa using h2⟩
    · rintro ⟨h1, h2⟩
      exact ⟨h1, by simpa using h2⟩
  · have hgo := headPerGroupGo_countP 5 (fun p : (String × String) × Nat => p.1.1) role
      (sortedSkillCounts df) []
    simp only [List.count_nil, Nat.sub_zero] at hgo
    have hcp : (sortedSkillCounts df).countP (fun p => p.1.1 == role)
        = (skill_counts df).countP (fun p => p.1.1 == role) :=
      (sortBy_perm roleCountLe (skill_counts df)).countP_eq _
    simp only [top5_per_role, headPerGroup]
    rw [hgo, hcp]
  · intro p q hp hq hrole hqn
    have hqs : q ∈ sortedSkillCounts df := (mem_sortBy roleCountLe q (skill_counts df)).mpr hq
    have hps : p ∈ sortedSkillCounts df :=
      (headPerGroupGo_sublist 5 (fun p : (String × String) × Nat => p.1.1)
        (sortedSkillCounts df) []).subset hp
    have hne : p ≠ q := fun h => hqn (h ▸ hp)
    have hp2 : p ∈ headPerGroupGo 5 (fun p : (String × String) × Nat => p.1.1)
        (sortedSkillCounts df) [] := hp
    have hqn2 : q ∉ headPerGroupGo 5 (fun p : (String × String) × Nat => p.1.1)
        (sortedSkillCounts df) [] := hqn
    have hpair : [p, q] <+ sortedSkillCounts df := by
      rcases pair_sublist_of_mem hps hqs hne with h | h
      · exact h
      · exact absurd hp2 (headPerGroupGo_drop_later 5
          (fun p : (String × String) × Nat => p.1.1)
          (sortedSkillCounts df) [] q p hnodup h hrole hqn2)
    have hle : roleCountLe p q = true := List.pairwise_iff_forall_sublist.mp hsorted hpair
    unfold roleCountLe lexBy at hle
    simp only [Bool.or_eq_true, Bool.and_eq_true, decide_eq_true_eq] at hle
    rcases hle with h | ⟨_, h⟩
    · rw [hrole, strLtB_irrefl] at h
      cases h
    · exact h
  · intro p q hp hq hrole hcount hskill hqtop
    by_contra hptop
    have hne : p ≠ q := by
      intro h
      rw [h, strLtB_irrefl] at hskill
      cases hskill
    have hpairsc : [p, q] <+ skill_counts df := by
      rcases pair_sublist_of_mem hp hq hne with h | h
      · exact h
      · exfalso
        have hpw : (groupCounts skillKeyLe (skillObs df)).Pairwise
            (fun a b => skillKeyLe a.1 b.1 = true) :=
          pairwise_groupCounts skillKeyLe (fun _ _ _ h1 h2 => skillKeyLe_trans h1 h2)
            skillKeyLe_total (skillObs df)
        have h2 : [q, p] <+ groupCounts skillKeyLe (skillObs df) := h
        have hkp := List.pairwise_iff_forall_sublist.mp hpw h2
        unfold skillKeyLe lexBy at hkp
        simp only [Bool.or_eq_true, Bool.and_eq_true, decide_eq_true_eq] at hkp
        rcases hkp with hlt | ⟨heq, hle⟩
        · rw [hrole, strLtB_irrefl] at hlt
          cases hlt
        · unfold strLeB at hle
          rw [hskill] at hle
          simp at hle
    have hrc : roleCountLe p q = true := by
      unfold roleCountLe lexBy
      simp only [Bool.or_eq_true, Bool.and_eq_true, decide_eq_true_eq]
      exact Or.inr ⟨hrole, le_of_eq hcount.symm⟩
    have hpairs : [p, q] <+ sortedSkillCounts df :=
      pair_sublist_sortBy roleCountLe hrc hpairsc
    have hptop2 : p ∉ headPerGroupGo 5 (fun p : (String × String) × Nat => p.1.1)
        (sortedSkillCounts df) [] := hptop
    have hqtop2 : q ∈ headPerGroupGo 5 (fun p : (String × String) × Nat => p.1.1)
        (sortedSkillCounts df) [] := hqtop
    exact (headPerGroupGo_drop_later 5 (fun p : (String × String) × Nat => p.1.1)
      (sortedSkillCounts df) [] p q hnodup hpairs hrole hptop2) hqtop2

theorem claim6_top_skills_selection_witness :
    (("Data Analyst", "powerbi"), 1) ∈ top5_per_role exDfSkills :=
  ((claim6_top_skills_selection exDfSkills "Data Analyst").2.2.2.2.2)
    (("Data Analyst", "powerbi"), 1) (("Data Analyst", "r"), 1)
    (by decide) (by decide) rfl rfl (by decide) (by decide)

/-- Claim C7: aggregation (e) groups skills case- and
whitespace-insensitively: its output is invariant under changing the
letter case or surrounding whitespace of any skill entry of any record,
and the grouped table has pairwise distinct (normalized) skill keys, so
two entries equal after trimming and lower-casing fall into one group
with a single median. -/
theorem claim7_skill_normalization_invariance (d1 d2 : Dataset)
    (h : List.Forall₂ recNormEq d1 d2) :
    df_top_analyst_skills d1 = df_top_analyst_skills d2
    ∧ ((df_analyst_skill_salary d1).map Prod.fst).Nodup := by
  have h1 : List.Forall₂ recNormEq (df_US d1) (df_US d2) := by
    refine forall₂_filter ?_ h
    intro a b hab
    simp only [hab.1]
  have h2 : List.Forall₂ recNormEq (df_DA d1) (df_DA d2) := by
    refine forall₂_filter ?_ h1
    intro a b hab
    simp only [titleMatchDA, hab.2.2.1]
  have h3 : List.Forall₂ recNormEq (df_DA_dropna d1) (df_DA_dropna d2) := by
    refine forall₂_filter ?_ h2
    intro a b hab
    simp only [hab.2.2.2.2.1, skillsRel_isSome hab.2.2.2.2.2]
  have h4 : df_DA_norm d1 = df_DA_norm d2 := by
    simp only [df_DA_norm, df_DA_exploded]
    exact flatMap_map_congr h3
  constructor
  · simp only [df_top_analyst_skills, df_analyst_skill_salary, skillSalaryRows]
    rw [h4]
  · have hperm : ((df_analyst_skill_salary d1).map Prod.fst)
        ~ ((groupVals strLeB (skillSalaryRows d1)).map Prod.fst) := by
      simp only [df_analyst_skill_salary]
      have hp := (sortBy_perm (geBy (Prod.snd : String × ℚ → ℚ))
        ((groupVals strLeB (skillSalaryRows d1)).map
          (fun g => (g.1, medianD (g.2.filterMap id))))).map Prod.fst
      rw [List.map_map] at hp
      exact hp
    exact (hperm.nodup_iff).mpr (nodup_keys_groupVals strLeB (skillSalaryRows d1))

theorem claim7_skill_normalization_invariance_witness :
    df_top_analyst_skills exDfNormA = df_top_analyst_skills exDfNormB :=
  (claim7_skill_normalization_invariance exDfNormA exDfNormB
    (List.Forall₂.cons
      ⟨rfl, rfl, rfl, rfl, rfl,
        List.Forall₂.cons (show normSkill " SQL " = normSkill "sql" by decide)
          (List.Forall₂.cons (show normSkill "Excel" = normSkill "excel" by decide)
            List.Forall₂.nil)⟩
      List.Forall₂.nil)).1

end JobCharts
